import Mathlib

/-!
Verification of the shadowyapparatus balance-reconstruction and
coin-selection code: a shallow embedding of `check_balance.py`,
`balance_api.py` and `shadowy-python/shadowy_cli.py`, with theorems about
the embedded functions.

Conventions of the embedding:
* Python dict lookups `d.get(k)` / `d.get(k, default)` become `Option`
  fields read with `Option.getD`.
* A transaction whose processing raises an exception is modelled by the
  constructor `corrupt` (outer base64/JSON decode failure, or a non-dict
  payload) or by an `inner := none` field (missing or undecodable inner
  payload of a qualifying transaction).
* A block whose fetch or structural lookup fails is modelled as `none`.
* All integer amounts are `Nat` (smallest units / satoshis), matching the
  spec's "values are non-negative integers".
-/

namespace Shadowy

/-- One entry of an inner transaction's `outputs` list: the fields the
scanner reads, `address` and `value`, both read with `dict.get`. -/
structure Output where
  address : Option String
  value : Option Nat
deriving DecidableEq, Repr

/-- The decoded inner (coinbase) transaction: the scanner only reads
`inner_tx.get('outputs', [])`. A missing `outputs` key defaults to the
empty list, so it is modelled as a plain list. -/
structure InnerTx where
  outputs : List Output
deriving DecidableEq, Repr

/-- A decoded signed transaction. `algorithm` and `signer_key` are read
with `dict.get` (default `None`); `inner := none` models a `transaction`
payload that is missing or fails to decode (`base64`/`json` raises), which
only matters once the transaction qualifies. -/
structure SignedTx where
  algorithm : Option String
  signer_key : Option String
  inner : Option InnerTx
deriving DecidableEq, Repr

/-- One entry of a block's `txs` list. `corrupt` models an entry whose
outer decode raises (bad base64, bad JSON, or a non-dict payload). -/
inductive TxRecord where
  | corrupt : TxRecord
  | ok : SignedTx → TxRecord
deriving DecidableEq, Repr

/-- A block as the scanner sees it: `none` when the block fetch or the
`result.block.data.txs` lookup fails (the whole height is skipped),
otherwise the ordered list of transaction records. -/
abbrev Block := Option (List TxRecord)

/-- The qualifying test of both scanners:
`signed_tx.get('algorithm') == 'coinbase' and signed_tx.get('signer_key') == address`. -/
def qualifies (address : String) (s : SignedTx) : Bool :=
  s.algorithm == some "coinbase" && s.signer_key == some address

/-- The inner per-output loop of `calculate_balance`: starting from the
running `(balance, mining_rewards)` pair, each output whose `address`
equals the target adds `output.get('value', 0)` to the balance and `1` to
the reward count. -/
def tallyOutputs (address : String) (acc : Nat × Nat) (outs : List Output) : Nat × Nat :=
  outs.foldl
    (fun acc o =>
      if o.address == some address then (acc.1 + o.value.getD 0, acc.2 + 1) else acc)
    acc

/-- Processing of a single `txs` entry: `none` means an exception is
raised (corrupt outer record, or a qualifying record whose inner payload
is missing/undecodable); otherwise the `(balance, rewards)` increments
contributed by the entry. A non-qualifying record contributes `(0, 0)`
and its inner payload is never decoded. -/
def scanTx (address : String) : TxRecord → Option (Nat × Nat)
  | .corrupt => none
  | .ok s =>
    if qualifies address s then
      match s.inner with
      | none => none
      | some it => some (tallyOutputs address (0, 0) it.outputs)
    else
      some (0, 0)

/-- The per-block transaction loop. The `try/except` of both scanners
wraps the whole block body, so the first entry that raises aborts the
remaining entries of the block while keeping the increments already made;
scanning then continues at the next height. -/
def scanBlock (address : String) (acc : Nat × Nat) : List TxRecord → Nat × Nat
  | [] => acc
  | t :: rest =>
    match scanTx address t with
    | none => acc
    | some d => scanBlock address (acc.1 + d.1, acc.2 + d.2) rest

/-- The height loop: scan each block in order, threading the running
`(balance, mining_rewards)` pair. A `none` block (failed fetch or missing
structure) is skipped. -/
def scanChain (address : String) (acc : Nat × Nat) : List Block → Nat × Nat
  | [] => acc
  | b :: rest =>
    match b with
    | none => scanChain address acc rest
    | some txs => scanChain address (scanBlock address acc txs) rest

/-- `calculate_balance` of `check_balance.py` and `balance_api.py`
(identical logic): scan heights `1..N` in order, starting from balance `0`
and reward count `0`. Returns `(balance, mining_rewards)`. -/
def calculate_balance (address : String) (chain : List Block) : Nat × Nat :=
  scanChain address (0, 0) chain

/-- Sum of `f` over every transaction record of every fetched block. -/
def chainSum (f : TxRecord → Nat) (chain : List Block) : Nat :=
  (chain.map
    (fun b =>
      match b with
      | none => 0
      | some txs => (txs.map f).sum)).sum

/-- Ground truth, per output list: total value of the outputs addressed to
the target. -/
def sumMatching (address : String) (outs : List Output) : Nat :=
  ((outs.filter (fun o => o.address == some address)).map (fun o => o.value.getD 0)).sum

/-- Ground truth, per output list: number of outputs addressed to the
target. -/
def countMatching (address : String) (outs : List Output) : Nat :=
  (outs.filter (fun o => o.address == some address)).length

/-- Ground truth, per record: value contributed by a decodable qualifying
transaction's outputs to the target; anything else contributes `0`. -/
def txBalance (address : String) : TxRecord → Nat
  | .corrupt => 0
  | .ok s =>
    if qualifies address s then
      match s.inner with
      | none => 0
      | some it => sumMatching address it.outputs
    else 0

/-- Ground truth, per record: number of outputs to the target inside a
decodable qualifying transaction. -/
def txMatchingOutputs (address : String) : TxRecord → Nat
  | .corrupt => 0
  | .ok s =>
    if qualifies address s then
      match s.inner with
      | none => 0
      | some it => countMatching address it.outputs
    else 0

/-- Ground truth, per record: `1` for a decodable qualifying transaction
(algorithm `"coinbase"` and signer-key equal to the target). -/
def txQualifying (address : String) : TxRecord → Nat
  | .corrupt => 0
  | .ok s => if qualifies address s then 1 else 0

/-- Ground-truth balance of a chain: sum of the values of all outputs
addressed to the target over exactly the qualifying transactions. -/
def groundTruthBalance (address : String) (chain : List Block) : Nat :=
  chainSum (txBalance address) chain

/-- Ground-truth count of outputs addressed to the target over the
qualifying transactions of a chain. -/
def matchingOutputCount (address : String) (chain : List Block) : Nat :=
  chainSum (txMatchingOutputs address) chain

/-- Ground-truth number of qualifying transactions of a chain. -/
def qualifyingCount (address : String) (chain : List Block) : Nat :=
  chainSum (txQualifying address) chain

/-- A record whose processing raises no exception: it decodes, and when it
qualifies its inner payload decodes too. -/
def txProcessable (address : String) : TxRecord → Bool
  | .corrupt => false
  | .ok s => !qualifies address s || s.inner.isSome

/-- A block that is fetched and whose every record processes without an
exception. -/
def blockProcessable (address : String) : Block → Bool
  | none => false
  | some txs => txs.all (txProcessable address)

/-! ## Coin selection and transaction assembly (`shadowy_cli.py`, `send_transaction`) -/

/-- A spendable candidate as `send_transaction` and `get_address_utxos`
handle it: a dict whose fields are all read with `dict.get` and a
default. (`script_pubkey` is carried by the code but never read by the
modelled logic, so it is omitted.) -/
structure Utxo where
  txid : Option String
  vout : Option Nat
  value : Option Nat
  address : Option String
  confirmations : Option Nat
deriving DecidableEq, Repr

/-- `utxo.get("value", 0)`. -/
def utxoValue (u : Utxo) : Nat :=
  u.value.getD 0

/-- Total value of a candidate list, `sum(u.get("value", 0) for u in l)`. -/
def sumValues (l : List Utxo) : Nat :=
  (l.map utxoValue).sum

/-- Stable insertion of a candidate in front of the first strictly
smaller-valued entry: the insertion step of the stable descending sort. -/
def insertDescByValue (u : Utxo) : List Utxo → List Utxo
  | [] => [u]
  | v :: rest =>
    if utxoValue v ≤ utxoValue u then u :: v :: rest else v :: insertDescByValue u rest

/-- `utxos.sort(key=lambda x: x.get("value", 0), reverse=True)`: the
stable sort by value descending (Python's sort is stable, and the stable
descending order is unique, so any stable algorithm models it). -/
def sortByValueDesc : List Utxo → List Utxo
  | [] => []
  | u :: rest => insertDescByValue u (sortByValueDesc rest)

/-- The fixed fee constant of `send_transaction`:
`estimated_fee = 100000` satoshis (0.001 SHADOW), not size-based. -/
def estimated_fee : Nat := 100000

/-- The greedy selection loop of `send_transaction`: append each candidate
in order and accumulate its value, breaking as soon as the running total
reaches `needed = amount_satoshis + estimated_fee`. Returns the selected
candidates and their total. -/
def selectUtxos (needed : Nat) (acc : List Utxo) (total : Nat) : List Utxo → List Utxo × Nat
  | [] => (acc, total)
  | u :: rest =>
    if needed ≤ total + utxoValue u then (acc ++ [u], total + utxoValue u)
    else selectUtxos needed (acc ++ [u]) (total + utxoValue u) rest

/-- The errors `send_transaction` can return before a transaction record
exists: the empty-candidate guard and the insufficient-funds guard (which
reports `total_needed` and `total_selected`). -/
inductive SendError where
  | noSpendableUtxos : SendError
  | insufficientFunds : Nat → Nat → SendError
deriving DecidableEq, Repr

/-- A transaction output as assembled in Step 4 of `send_transaction`. -/
structure TxOut where
  value : Nat
  address : String
deriving DecidableEq, Repr

/-- The assembled (pre-signing) transaction record together with the
selection data `send_transaction` computed on the way. -/
structure TxRecordAssembled where
  inputs : List (String × Nat)
  outputs : List TxOut
  selected : List Utxo
  totalSelected : Nat
  change : Nat
deriving DecidableEq, Repr

/-- Steps 3-4 of `send_transaction`, after selection: fail with the
insufficient-funds error (reporting `total_needed` and `total_selected`)
when the selection could not cover `amount + estimated_fee`, otherwise
assemble inputs from the selected candidates and outputs as the recipient
output plus a change output exactly when the change
`total_selected - amount - fee` is strictly positive. -/
def sendAssemble (from_address to_address : String) (amount_satoshis : Nat)
    (sel : List Utxo × Nat) : Except SendError TxRecordAssembled :=
  if sel.2 < amount_satoshis + estimated_fee then
    .error (.insufficientFunds (amount_satoshis + estimated_fee) sel.2)
  else
    .ok
      { inputs := sel.1.map (fun u => (u.txid.getD "", u.vout.getD 0))
        outputs :=
          { value := amount_satoshis, address := to_address } ::
            (if 0 < sel.2 - amount_satoshis - estimated_fee then
              [{ value := sel.2 - amount_satoshis - estimated_fee, address := from_address }]
            else [])
        selected := sel.1
        totalSelected := sel.2
        change := sel.2 - amount_satoshis - estimated_fee }

/-- Steps 1-4 of `send_transaction` (native-asset path, amount already in
satoshis): guard against an empty candidate list, sort by value
descending, select greedily until `amount + estimated_fee` is covered,
then hand the selection to `sendAssemble`. Signing and broadcast are
external and happen after this point. -/
def send_transaction (from_address to_address : String) (utxos : List Utxo)
    (amount_satoshis : Nat) : Except SendError TxRecordAssembled :=
  if utxos.isEmpty then .error .noSpendableUtxos
  else
    sendAssemble from_address to_address amount_satoshis
      (selectUtxos (amount_satoshis + estimated_fee) [] 0 (sortByValueDesc utxos))

/-- Whether a send result is the insufficient-funds error. -/
def isInsufficientFunds : Except SendError TxRecordAssembled → Bool
  | .error (.insufficientFunds _ _) => true
  | _ => false

/-! ## UTXO lookup (`shadowy_cli.py`, `get_address_utxos`) -/

/-- The hard-coded fixture list of `_create_mock_utxos`: two candidates
worth 10 and 5 SHADOW. -/
def _create_mock_utxos (address : String) : List Utxo :=
  [{ txid := some "a1b2c3d4e5f6789012345678901234567890abcdef1234567890abcdef123456"
     vout := some 0
     value := some 1000000000
     address := some address
     confirmations := some 10 },
   { txid := some "b2c3d4e5f6789012345678901234567890abcdef1234567890abcdef1234567a"
     vout := some 1
     value := some 500000000
     address := some address
     confirmations := some 20 }]

/-- The possible outcomes of the `_call_wasm('get_utxos')` bridge call as
`get_address_utxos` distinguishes them: an exception, a dict carrying an
`error` key, a list result, a dict whose `utxos` key is a list, a dict
without a list `utxos` key, or any other type. -/
inductive WasmResult where
  | raises : String → WasmResult
  | err : String → WasmResult
  | list : List Utxo → WasmResult
  | dictWithUtxos : List Utxo → WasmResult
  | dictOther : WasmResult
  | other : WasmResult
deriving DecidableEq, Repr

/-- The candidate list `get_address_utxos` ends up with: every failure,
non-list or empty outcome is silently replaced by the fixture list of
`_create_mock_utxos`. -/
def resolveUtxos (address : String) : WasmResult → List Utxo
  | .raises _ => _create_mock_utxos address
  | .err _ => _create_mock_utxos address
  | .list us => if us.isEmpty then _create_mock_utxos address else us
  | .dictWithUtxos us => if us.isEmpty then _create_mock_utxos address else us
  | .dictOther => _create_mock_utxos address
  | .other => _create_mock_utxos address

/-- The result dict of `get_address_utxos`. -/
structure UtxoResult where
  address : String
  utxos : List Utxo
  count : Nat
  total_value : Nat
  source : String
deriving DecidableEq, Repr

/-- `get_address_utxos`: fails only when no client is configured;
otherwise resolves the WASM outcome (substituting mock candidates on any
failure or empty result) and returns the result dict whose `count` and
`total_value` are computed from the resolved list. -/
def get_address_utxos (hasClient : Bool) (address : String) (w : WasmResult) :
    Except String UtxoResult :=
  if !hasClient then .error "No client configured"
  else
    let utxos := resolveUtxos address w
    .ok
      { address := address
        utxos := utxos
        count := utxos.length
        total_value := sumValues utxos
        source := "WASM-PQC" }

/-! ## Address validation (`shadowy_cli.py`, `validate_address`) -/

/-- The result dict of `validate_address`. -/
structure ValidateResult where
  valid : Bool
  address : Option (List Char)
  error : Option String
deriving DecidableEq, Repr

/-- `validate_address`: purely local — `len(address) == 51 and
address.startswith('S')`, nothing else. The address is a Python `str`,
i.e. a sequence of arbitrary code points, modelled as `List Char`. -/
def validate_address (address : List Char) : ValidateResult :=
  if address.length = 51 ∧ address.take 1 = ['S'] then
    { valid := true, address := some address, error := none }
  else
    { valid := false, address := none
      error := some "Invalid address format - should be 51 characters starting with 'S'" }

/-! ## The HTTP façade (`balance_api.py`, `BalanceHandler`) -/

/-- Outcome of `BalanceHandler.calculate_balance` as the request handler
sees it: a `(balance, mining_rewards)` pair, or an exception. -/
inductive ScanOutcome where
  | ok : Nat → Nat → ScanOutcome
  | fails : ScanOutcome
deriving DecidableEq, Repr

/-- Status line and headers of an HTTP response; only what the handler
code itself sets is modelled (bodies are not needed by any claim). -/
structure HttpResponse where
  status : Nat
  headers : List (String × String)
deriving DecidableEq, Repr

/-- The headers `handle_balance_request` sends on success. -/
def balance_200_response : HttpResponse :=
  { status := 200
    headers := [("Content-Type", "application/json"), ("Access-Control-Allow-Origin", "*")] }

/-- `send_404`: status 404 with only a `Content-Type` header. -/
def send_404_response : HttpResponse :=
  { status := 404, headers := [("Content-Type", "text/plain")] }

/-- The 500 path: `handle_balance_request` calls the library
`send_error(500, ...)`, passing no headers of its own; the library default
headers it emits (an HTML `Content-Type` and `Connection: close`) are
reproduced here. -/
def send_error_500_response : HttpResponse :=
  { status := 500
    headers := [("Content-Type", "text/html;charset=utf-8"), ("Connection", "close")] }

/-- `BalanceHandler.do_GET`: split the path on `/`; when it starts with
`/api/v1/address/`, has at least 5 parts and part 4 equals `balance`,
serve the balance request (200 on success, 500 when the scan raises);
otherwise 404. -/
def do_GET (path : String) (scan : ScanOutcome) : HttpResponse :=
  let parts := path.splitOn "/"
  if path.startsWith "/api/v1/address/" then
    if 5 ≤ parts.length ∧ parts.getD 4 "" = "balance" then
      match scan with
      | .ok _ _ => balance_200_response
      | .fails => send_error_500_response
    else send_404_response
  else send_404_response

/-- Whether a response carries the CORS header
`Access-Control-Allow-Origin: *`. -/
def hasCORS (r : HttpResponse) : Bool :=
  r.headers.any (fun p => p.1 == "Access-Control-Allow-Origin" && p.2 == "*")

/-! ## Concrete fixtures used by counterexamples and witnesses -/

/-- A coinbase transaction signed by `"A"` with one output of 10 to `"A"`. -/
def coinTxA : TxRecord :=
  .ok { algorithm := some "coinbase", signer_key := some "A"
        inner := some { outputs := [{ address := some "A", value := some 10 }] } }

/-- A coinbase transaction signed by `"A"` with two outputs (5 and 7) both
addressed to `"A"`. -/
def coinTxTwo : TxRecord :=
  .ok { algorithm := some "coinbase", signer_key := some "A"
        inner := some { outputs := [{ address := some "A", value := some 5 },
                                    { address := some "A", value := some 7 }] } }

/-- A non-coinbase transaction (never qualifies, inner payload never
decoded). -/
def otherTx : TxRecord :=
  .ok { algorithm := some "ed25519", signer_key := some "B", inner := none }

/-- A spendable candidate worth 10 SHADOW (`1000000000` satoshis). -/
def cand10 : Utxo :=
  { txid := some "t10", vout := some 0, value := some 1000000000
    address := some "F", confirmations := some 10 }

/-- A spendable candidate worth 5 SHADOW (`500000000` satoshis). -/
def cand5 : Utxo :=
  { txid := some "t5", vout := some 1, value := some 500000000
    address := some "F", confirmations := some 20 }

/-- The record `send_transaction` assembles for candidates `[cand5, cand10]`
and amount `1200000000` satoshis (12 SHADOW). -/
def sendRec12 : TxRecordAssembled :=
  { inputs := [("t10", 0), ("t5", 1)]
    outputs := [{ value := 1200000000, address := "T" },
                { value := 299900000, address := "F" }]
    selected := [cand10, cand5]
    totalSelected := 1500000000
    change := 299900000 }

/-- The record `send_transaction` assembles for candidate `[cand10]` and
amount `999900000` satoshis (change exactly zero). -/
def sendRecZeroChange : TxRecordAssembled :=
  { inputs := [("t10", 0)]
    outputs := [{ value := 999900000, address := "T" }]
    selected := [cand10]
    totalSelected := 1000000000
    change := 0 }

/-- The result `get_address_utxos` returns for a WASM dict carrying the
single-candidate list `[cand5]`. -/
def utxoRes5 : UtxoResult :=
  { address := "A", utxos := [cand5], count := 1
    total_value := 500000000, source := "WASM-PQC" }

/-! ## Lemmas about the balance scanner -/

theorem tallyOutputs_eq (address : String) (outs : List Output) :
    ∀ b r : Nat, tallyOutputs address (b, r) outs =
      (b + sumMatching address outs, r + countMatching address outs) := by
  induction outs with
  | nil =>
    intro b r
    simp [tallyOutputs, sumMatching, countMatching]
  | cons o rest ih =>
    intro b r
    by_cases h : o.address = some address
    · have step : tallyOutputs address (b, r) (o :: rest)
          = tallyOutputs address (b + o.value.getD 0, r + 1) rest := by
        simp [tallyOutputs, beq_iff_eq, h]
      rw [step, ih]
      simp [sumMatching, countMatching, List.filter_cons, beq_iff_eq, h, Prod.mk.injEq]
      omega
    · have step : tallyOutputs address (b, r) (o :: rest)
          = tallyOutputs address (b, r) rest := by
        simp [tallyOutputs, beq_iff_eq, h]
      rw [step, ih]
      simp [sumMatching, countMatching, List.filter_cons, beq_iff_eq, h]

theorem scanTx_eq_of_processable (address : String) (t : TxRecord)
    (h : txProcessable address t = true) :
    scanTx address t = some (txBalance address t, txMatchingOutputs address t) := by
  cases t with
  | corrupt => simp [txProcessable] at h
  | ok s =>
    by_cases hq : qualifies address s
    · simp only [txProcessable, hq, Bool.not_true, Bool.false_or] at h
      match hs : s.inner with
      | none => rw [hs] at h; simp at h
      | some it =>
        simp only [scanTx, txBalance, txMatchingOutputs, hq, hs, if_true]
        rw [tallyOutputs_eq address it.outputs 0 0]
        simp
    · simp [scanTx, txBalance, txMatchingOutputs, hq]

theorem scanBlock_eq_of_processable (address : String) :
    ∀ txs : List TxRecord, txs.all (txProcessable address) = true →
      ∀ acc : Nat × Nat, scanBlock address acc txs =
        (acc.1 + (txs.map (txBalance address)).sum,
         acc.2 + (txs.map (txMatchingOutputs address)).sum) := by
  intro txs
  induction txs with
  | nil => intro _ acc; simp [scanBlock]
  | cons t rest ih =>
    intro h acc
    simp only [List.all_cons, Bool.and_eq_true] at h
    have ht := scanTx_eq_of_processable address t h.1
    simp only [scanBlock, ht]
    rw [ih h.2]
    simp [Prod.mk.injEq]
    omega

theorem scanChain_eq_of_processable (address : String) :
    ∀ chain : List Block, chain.all (blockProcessable address) = true →
      ∀ acc : Nat × Nat, scanChain address acc chain =
        (acc.1 + groundTruthBalance address chain,
         acc.2 + matchingOutputCount address chain) := by
  intro chain
  induction chain with
  | nil =>
    intro _ acc
    simp [scanChain, groundTruthBalance, matchingOutputCount, chainSum]
  | cons b rest ih =>
    intro h acc
    simp only [List.all_cons, Bool.and_eq_true] at h
    match hb : b with
    | none => simp [blockProcessable] at h
    | some txs =>
      rw [scanChain]
      rw [scanBlock_eq_of_processable address txs h.1]
      rw [ih h.2]
      simp [groundTruthBalance, matchingOutputCount, chainSum, Prod.mk.injEq]
      omega

theorem scanTx_isSome_of_processable (address : String) (t : TxRecord)
    (h : txProcessable address t = true) :
    ∃ d, scanTx address t = some d :=
  ⟨_, scanTx_eq_of_processable address t h⟩

theorem scanBlock_corrupt_aborts (address : String) (suf : List TxRecord) :
    ∀ pre : List TxRecord, pre.all (txProcessable address) = true →
      ∀ acc : Nat × Nat,
        scanBlock address acc (pre ++ TxRecord.corrupt :: suf) = scanBlock address acc pre := by
  intro pre
  induction pre with
  | nil =>
    intro _ acc
    simp [scanBlock, scanTx]
  | cons t rest ih =>
    intro h acc
    simp only [List.all_cons, Bool.and_eq_true] at h
    obtain ⟨d, hd⟩ := scanTx_isSome_of_processable address t h.1
    rw [List.cons_append]
    simp only [scanBlock, hd]
    exact ih h.2 _

theorem scanChain_append (address : String) :
    ∀ (l1 l2 : List Block) (acc : Nat × Nat),
      scanChain address acc (l1 ++ l2) = scanChain address (scanChain address acc l1) l2 := by
  intro l1
  induction l1 with
  | nil => intro l2 acc; simp [scanChain]
  | cons b rest ih =>
    intro l2 acc
    match b with
    | none => rw [List.cons_append, scanChain, scanChain]; exact ih l2 acc
    | some txs => rw [List.cons_append, scanChain, scanChain]; exact ih l2 _

theorem scanChain_cons_some (address : String) (acc : Nat × Nat) (txs : List TxRecord)
    (rest : List Block) :
    scanChain address acc (some txs :: rest) = scanChain address (scanBlock address acc txs) rest :=
  rfl

/-! ## Claims C1-C3: the balance scanner -/

/-- C1 is refuted at a concrete chain: a single qualifying coinbase
transaction with two outputs to the target makes the reward count `2`,
while the chain contains exactly `1` qualifying transaction. -/
theorem C1_counterexample :
    (calculate_balance "A" [some [coinTxTwo]]).2 = 2 ∧
    qualifyingCount "A" [some [coinTxTwo]] = 1 := by
  decide

/-- C1 (amended): on every chain whose blocks all fetch and decode, the
reward count produced by the scan equals the number of matching *outputs*
across qualifying transactions — a qualifying transaction with `k` outputs
to the target contributes `k`, not `1`. -/
theorem C1_reward_count_per_matching_output (address : String) (chain : List Block)
    (h : chain.all (blockProcessable address) = true) :
    (calculate_balance address chain).2 = matchingOutputCount address chain := by
  unfold calculate_balance
  rw [scanChain_eq_of_processable address chain h (0, 0)]
  simp

/-- Witness for the amended C1 at the two-output chain: the reward count
is the matching-output count, here `2`. -/
theorem C1_amended_witness :
    ([some [coinTxTwo]] : List Block).all (blockProcessable "A") = true ∧
    (calculate_balance "A" [some [coinTxTwo]]).2 = matchingOutputCount "A" [some [coinTxTwo]] ∧
    matchingOutputCount "A" [some [coinTxTwo]] = 2 :=
  ⟨by decide, C1_reward_count_per_matching_output "A" [some [coinTxTwo]] (by decide), by decide⟩

/-- C2: on every chain whose blocks all fetch and whose transactions all
process without exception, the scanned balance equals the independently
computed sum of the values of all outputs addressed to the target over
exactly the transactions with algorithm `"coinbase"` and signer-key equal
to the target; all other transactions contribute nothing. -/
theorem C2_balance_matches_ground_truth (address : String) (chain : List Block)
    (h : chain.all (blockProcessable address) = true) :
    (calculate_balance address chain).1 = groundTruthBalance address chain := by
  unfold calculate_balance
  rw [scanChain_eq_of_processable address chain h (0, 0)]
  simp

/-- Witness for C2 at a chain with one qualifying, one non-qualifying
transaction and one empty block: balance `10` on both sides. -/
theorem C2_witness :
    ([some [coinTxA, otherTx], some []] : List Block).all (blockProcessable "A") = true ∧
    (calculate_balance "A" [some [coinTxA, otherTx], some []]).1
      = groundTruthBalance "A" [some [coinTxA, otherTx], some []] ∧
    groundTruthBalance "A" [some [coinTxA, otherTx], some []] = 10 :=
  ⟨by decide, C2_balance_matches_ground_truth "A" [some [coinTxA, otherTx], some []] (by decide),
    by decide⟩

/-- C3 is refuted at a concrete block: with the corrupted entry first and
3 valid qualifying transactions after it, the scan tallies nothing — the
`try/except` wraps the whole block body, so the corrupted entry aborts the
rest of the block instead of being skipped. -/
theorem C3_counterexample :
    calculate_balance "A" [some [TxRecord.corrupt, coinTxA, coinTxA, coinTxA]] = (0, 0) ∧
    qualifyingCount "A" [some [TxRecord.corrupt, coinTxA, coinTxA, coinTxA]] = 3 ∧
    groundTruthBalance "A" [some [TxRecord.corrupt, coinTxA, coinTxA, coinTxA]] = 30 := by
  decide

/-- C3 (amended): a corrupted entry aborts the remainder of its block —
the scan of a block equals the scan of the prefix of entries that precede
the first corrupted one, and scanning continues at the next height. In
particular 3 valid + 1 corrupted tallies all 3 exactly when the corrupted
entry comes after them. -/
theorem C3_corrupt_aborts_rest_of_block (address : String) (ch1 ch2 : List Block)
    (pre suf : List TxRecord) (h : pre.all (txProcessable address) = true) :
    calculate_balance address (ch1 ++ some (pre ++ TxRecord.corrupt :: suf) :: ch2)
      = calculate_balance address (ch1 ++ some pre :: ch2) := by
  unfold calculate_balance
  rw [scanChain_append, scanChain_append, scanChain_cons_some, scanChain_cons_some,
    scanBlock_corrupt_aborts address suf pre h]

/-- Witness for the amended C3: with the corrupted entry last, the three
valid transactions before it are tallied — balance `30`, rewards `3`. -/
theorem C3_amended_witness :
    ([coinTxA, coinTxA, coinTxA] : List TxRecord).all (txProcessable "A") = true ∧
    calculate_balance "A" [some ([coinTxA, coinTxA, coinTxA] ++ TxRecord.corrupt :: [])]
      = calculate_balance "A" [some [coinTxA, coinTxA, coinTxA]] ∧
    calculate_balance "A" [some [coinTxA, coinTxA, coinTxA]] = (30, 3) :=
  ⟨by decide,
    C3_corrupt_aborts_rest_of_block "A" [] [] [coinTxA, coinTxA, coinTxA] [] (by decide),
    by decide⟩

/-! ## Lemmas about coin selection -/

theorem sumValues_cons (u : Utxo) (l : List Utxo) :
    sumValues (u :: l) = utxoValue u + sumValues l := by
  simp [sumValues]

theorem insertDescByValue_perm (u : Utxo) :
    ∀ l : List Utxo, (insertDescByValue u l).Perm (u :: l) := by
  intro l
  induction l with
  | nil => simp [insertDescByValue]
  | cons v rest ih =>
    by_cases h : utxoValue v ≤ utxoValue u
    · simp [insertDescByValue, h]
    · rw [insertDescByValue, if_neg h]
      exact (ih.cons v).trans (List.Perm.swap u v rest)

theorem sortByValueDesc_perm : ∀ l : List Utxo, (sortByValueDesc l).Perm l := by
  intro l
  induction l with
  | nil => simp [sortByValueDesc]
  | cons u rest ih =>
    rw [sortByValueDesc]
    exact (insertDescByValue_perm u (sortByValueDesc rest)).trans (ih.cons u)

theorem sumValues_eq_of_perm {l1 l2 : List Utxo} (h : l1.Perm l2) :
    sumValues l1 = sumValues l2 :=
  (h.map utxoValue).sum_eq

theorem pairwise_insertDescByValue (u : Utxo) :
    ∀ l : List Utxo, List.Pairwise (fun a b => utxoValue b ≤ utxoValue a) l →
      List.Pairwise (fun a b => utxoValue b ≤ utxoValue a) (insertDescByValue u l) := by
  intro l
  induction l with
  | nil => intro _; simp [insertDescByValue]
  | cons v rest ih =>
    intro hp
    rcases List.pairwise_cons.mp hp with ⟨hv, hrest⟩
    by_cases h : utxoValue v ≤ utxoValue u
    · rw [insertDescByValue, if_pos h]
      refine List.pairwise_cons.mpr ⟨?_, hp⟩
      intro w hw
      rcases List.mem_cons.mp hw with rfl | hw2
      · exact h
      · exact le_trans (hv w hw2) h
    · rw [insertDescByValue, if_neg h]
      refine List.pairwise_cons.mpr ⟨?_, ih hrest⟩
      intro w hw
      have hw' : w = u ∨ w ∈ rest := by
        simpa using (insertDescByValue_perm u rest).mem_iff.mp hw
      rcases hw' with rfl | hw2
      · exact le_of_lt (lt_of_not_le h)
      · exact hv w hw2

theorem sortByValueDesc_sorted :
    ∀ l : List Utxo, List.Pairwise (fun a b => utxoValue b ≤ utxoValue a) (sortByValueDesc l) := by
  intro l
  induction l with
  | nil => simp [sortByValueDesc]
  | cons u rest ih =>
    rw [sortByValueDesc]
    exact pairwise_insertDescByValue u (sortByValueDesc rest) ih

theorem selectUtxos_shape :
    ∀ (l : List Utxo) (needed : Nat) (acc : List Utxo) (total : Nat),
      ∃ pre suf, l = pre ++ suf ∧
        selectUtxos needed acc total l = (acc ++ pre, total + sumValues pre) ∧
        (suf ≠ [] → needed ≤ total + sumValues pre) ∧
        (total + sumValues pre < needed → pre = l) ∧
        (total < needed → ∀ p u s, pre = p ++ u :: s → total + sumValues p < needed) := by
  intro l
  induction l with
  | nil =>
    intro needed acc total
    refine ⟨[], [], rfl, ?_, ?_, ?_, ?_⟩
    · simp [selectUtxos, sumValues]
    · intro hne; cases hne rfl
    · intro _; rfl
    · intro _ p u s hp; simp at hp
  | cons u0 rest ih =>
    intro needed acc total
    by_cases hstop : needed ≤ total + utxoValue u0
    · refine ⟨[u0], rest, rfl, ?_, ?_, ?_, ?_⟩
      · simp [selectUtxos, hstop, sumValues]
      · intro _; simpa [sumValues] using hstop
      · intro hlt; exfalso; simp [sumValues] at hlt; omega
      · intro htot p u s hp
        cases p with
        | nil => simpa [sumValues] using htot
        | cons a as =>
          exfalso
          simp at hp
    · have hlt0 : total + utxoValue u0 < needed := lt_of_not_le hstop
      obtain ⟨pre', suf', hsplit, heq, hsuf, hexh, hmin⟩ :=
        ih needed (acc ++ [u0]) (total + utxoValue u0)
      have hstep : selectUtxos needed acc total (u0 :: rest)
          = selectUtxos needed (acc ++ [u0]) (total + utxoValue u0) rest := by
        simp [selectUtxos, hstop]
      refine ⟨u0 :: pre', suf', by rw [hsplit]; rfl, ?_, ?_, ?_, ?_⟩
      · rw [hstep, heq]
        rw [sumValues_cons]
        simp [Nat.add_assoc]
      · intro hne
        have := hsuf hne
        rw [sumValues_cons]
        omega
      · intro hsmall
        rw [sumValues_cons] at hsmall
        have : pre' = rest := hexh (by omega)
        rw [this]
      · intro _ p u s hp
        cases p with
        | nil => simp [sumValues]; omega
        | cons a as =>
          rw [List.cons_append] at hp
          have h2 := (List.cons.injEq u0 pre' a (as ++ u :: s)).mp hp
          have hmin' := hmin hlt0 as u s h2.2
          rw [sumValues_cons, ← h2.1]
          omega

theorem sumValues_append (a b : List Utxo) :
    sumValues (a ++ b) = sumValues a + sumValues b := by
  simp [sumValues]

theorem send_transaction_ok (f t : String) (utxos : List Utxo) (amount_satoshis : Nat)
    (r : TxRecordAssembled) (h : send_transaction f t utxos amount_satoshis = .ok r) :
    ∃ pre suf,
      sortByValueDesc utxos = pre ++ suf ∧
      r.selected = pre ∧
      r.totalSelected = sumValues pre ∧
      amount_satoshis + estimated_fee ≤ r.totalSelected ∧
      r.change = r.totalSelected - amount_satoshis - estimated_fee ∧
      r.inputs = pre.map (fun u => (u.txid.getD "", u.vout.getD 0)) ∧
      r.outputs = { value := amount_satoshis, address := t } ::
        (if 0 < r.change then [{ value := r.change, address := f }] else []) ∧
      (∀ p u s, pre = p ++ u :: s → sumValues p < amount_satoshis + estimated_fee) := by
  unfold send_transaction at h
  by_cases he : utxos.isEmpty
  · rw [if_pos he] at h; exact absurd h (by simp)
  · rw [if_neg he] at h
    obtain ⟨pre, suf, hsplit, heq, hsuf, hexh, hmin⟩ :=
      selectUtxos_shape (sortByValueDesc utxos) (amount_satoshis + estimated_fee) [] 0
    rw [heq] at h
    unfold sendAssemble at h
    by_cases hlt : 0 + sumValues pre < amount_satoshis + estimated_fee
    · rw [if_pos hlt] at h; exact absurd h (by simp)
    · rw [if_neg hlt] at h
      simp only [Except.ok.injEq] at h
      subst h
      refine ⟨pre, suf, hsplit, by simp, by simp,
        (show amount_satoshis + estimated_fee ≤ 0 + sumValues pre by omega),
        rfl, by simp, rfl, ?_⟩
      intro p u s hp
      have := hmin (by unfold estimated_fee; omega) p u s hp
      omega

/-! ## Claims C4-C6: coin selection and change -/

/-- C4: on every successful send, the fee is the fixed constant `100000`
satoshis, the candidates are permuted into descending order by value, the
selected candidates are a prefix of that sorted order, their total covers
`amount + fee`, and every proper prefix of the selection falls short of
`amount + fee` — i.e. accumulation is greedy in sorted order and stops as
soon as the target is reached. -/
theorem C4_sorted_greedy_selection (f t : String) (utxos : List Utxo) (amount_satoshis : Nat)
    (r : TxRecordAssembled) (h : send_transaction f t utxos amount_satoshis = .ok r) :
    estimated_fee = 100000 ∧
    (sortByValueDesc utxos).Perm utxos ∧
    List.Pairwise (fun a b => utxoValue b ≤ utxoValue a) (sortByValueDesc utxos) ∧
    (∃ rest, sortByValueDesc utxos = r.selected ++ rest) ∧
    r.totalSelected = sumValues r.selected ∧
    amount_satoshis + estimated_fee ≤ r.totalSelected ∧
    (∀ p u s, r.selected = p ++ u :: s → sumValues p < amount_satoshis + estimated_fee) := by
  obtain ⟨pre, suf, hsplit, hsel, htot, hge, hch, hin, hout, hmin⟩ :=
    send_transaction_ok f t utxos amount_satoshis r h
  refine ⟨rfl, sortByValueDesc_perm utxos, sortByValueDesc_sorted utxos,
    ⟨suf, by rw [hsplit, hsel]⟩, by rw [htot, hsel], hge, ?_⟩
  intro p u s hp
  exact hmin p u s (by rw [← hsel]; exact hp)

/-- Witness for C4 at the spec's fixture: candidates worth 10 and 5
SHADOW, amount 12 SHADOW (1200000000 satoshis), fee 0.001 SHADOW: both
candidates are selected (largest first) and a change output of exactly
299900000 satoshis (2.999 SHADOW) back to the sender is emitted. -/
theorem C4_witness :
    send_transaction "F" "T" [cand5, cand10] 1200000000 = Except.ok sendRec12 ∧
    sendRec12.selected = [cand10, cand5] ∧
    sendRec12.change = 299900000 ∧
    sendRec12.outputs = [{ value := 1200000000, address := "T" },
                         { value := 299900000, address := "F" }] ∧
    (estimated_fee = 100000 ∧
      (sortByValueDesc [cand5, cand10]).Perm [cand5, cand10] ∧
      List.Pairwise (fun a b => utxoValue b ≤ utxoValue a) (sortByValueDesc [cand5, cand10]) ∧
      (∃ rest, sortByValueDesc [cand5, cand10] = sendRec12.selected ++ rest) ∧
      sendRec12.totalSelected = sumValues sendRec12.selected ∧
      1200000000 + estimated_fee ≤ sendRec12.totalSelected ∧
      (∀ p u s, sendRec12.selected = p ++ u :: s →
        sumValues p < 1200000000 + estimated_fee)) :=
  ⟨rfl, rfl, rfl, rfl,
    C4_sorted_greedy_selection "F" "T" [cand5, cand10] 1200000000 sendRec12 rfl⟩

/-- C5 is refuted at the empty candidate list: its total `0` is below
`amount + fee`, yet the send fails with the distinct no-spendable-UTXOs
error rather than the insufficient-funds error. -/
theorem C5_counterexample :
    sumValues [] < 100000000 + estimated_fee ∧
    send_transaction "F" "T" [] 100000000 = Except.error SendError.noSpendableUtxos ∧
    isInsufficientFunds (send_transaction "F" "T" [] 100000000) = false := by
  refine ⟨by decide, rfl, rfl⟩

/-- C5 (amended): when the candidates cannot cover `amount + fee`, a
nonempty candidate list fails with the insufficient-funds error carrying
`total_needed = amount + fee` and `total_selected` (their difference is
the shortfall), while the empty list fails with the distinct
no-spendable-UTXOs error; in both cases no transaction record is
assembled. -/
theorem C5_insufficient_funds (f t : String) (utxos : List Utxo) (amount_satoshis : Nat)
    (h : sumValues utxos < amount_satoshis + estimated_fee) :
    (utxos ≠ [] → send_transaction f t utxos amount_satoshis =
      .error (.insufficientFunds (amount_satoshis + estimated_fee) (sumValues utxos))) ∧
    (utxos = [] → send_transaction f t utxos amount_satoshis = .error .noSpendableUtxos) ∧
    (∀ r, send_transaction f t utxos amount_satoshis ≠ .ok r) := by
  by_cases he : utxos.isEmpty
  · have hnil : utxos = [] := List.isEmpty_iff.mp he
    refine ⟨fun hne => absurd hnil hne, fun _ => ?_, fun r => ?_⟩
    · unfold send_transaction; rw [if_pos he]
    · unfold send_transaction; rw [if_pos he]; exact fun hc => by cases hc
  · have hsum : sumValues (sortByValueDesc utxos) = sumValues utxos :=
      sumValues_eq_of_perm (sortByValueDesc_perm utxos)
    obtain ⟨pre, suf, hsplit, heq, hsuf, hexh, hmin⟩ :=
      selectUtxos_shape (sortByValueDesc utxos) (amount_satoshis + estimated_fee) [] 0
    have hprele : sumValues pre ≤ sumValues utxos := by
      rw [← hsum, hsplit, sumValues_append]; omega
    have hsufnil : suf = [] := by
      by_contra hne
      have := hsuf hne
      omega
    have hpre : pre = sortByValueDesc utxos := by
      rw [hsplit, hsufnil, List.append_nil]
    have hresult : send_transaction f t utxos amount_satoshis =
        .error (.insufficientFunds (amount_satoshis + estimated_fee) (sumValues utxos)) := by
      unfold send_transaction
      rw [if_neg he, heq]
      unfold sendAssemble
      have hcond : 0 + sumValues pre < amount_satoshis + estimated_fee := by
        rw [hpre, hsum]; omega
      rw [if_pos hcond]
      have : (0 : Nat) + sumValues pre = sumValues utxos := by rw [hpre, hsum]; omega
      rw [this]
    refine ⟨fun _ => hresult, fun hnil => ?_, fun r hr => ?_⟩
    · rw [hnil] at he; simp at he
    · rw [hresult] at hr; cases hr

/-- Witness for the amended C5: a single 5-SHADOW candidate cannot cover
10 SHADOW plus fee; the send fails with the insufficient-funds error
carrying the needed and available totals. -/
theorem C5_witness :
    sumValues [cand5] < 1000000000 + estimated_fee ∧
    send_transaction "F" "T" [cand5] 1000000000 =
      Except.error (SendError.insufficientFunds (1000000000 + estimated_fee)
        (sumValues [cand5])) :=
  ⟨by decide, (C5_insufficient_funds "F" "T" [cand5] 1000000000 (by decide)).1 (by decide)⟩

/-- C6: on every successful send, the change equals
`sum(selected) - amount - fee`, the recorded total equals the sum of the
selected candidates (which covers `amount + fee`), a change output paying
exactly the change back to the sender is appended exactly when the change
is strictly positive, and when the change is zero the outputs consist of
the recipient output alone. -/
theorem C6_change_emission (f t : String) (utxos : List Utxo) (amount_satoshis : Nat)
    (r : TxRecordAssembled) (h : send_transaction f t utxos amount_satoshis = .ok r) :
    r.change = sumValues r.selected - amount_satoshis - estimated_fee ∧
    r.totalSelected = sumValues r.selected ∧
    amount_satoshis + estimated_fee ≤ sumValues r.selected ∧
    (0 < r.change →
      r.outputs = [{ value := amount_satoshis, address := t },
                   { value := r.change, address := f }]) ∧
    (r.change = 0 → r.outputs = [{ value := amount_satoshis, address := t }]) := by
  obtain ⟨pre, suf, hsplit, hsel, htot, hge, hch, hin, hout, hmin⟩ :=
    send_transaction_ok f t utxos amount_satoshis r h
  have htot' : r.totalSelected = sumValues r.selected := by rw [htot, hsel]
  refine ⟨by rw [hch, htot'], htot', by rw [← htot']; exact hge, ?_, ?_⟩
  · intro hpos
    rw [hout, if_pos hpos]
  · intro h0
    rw [hout, h0]
    simp

/-- Witness for C6 at a zero-change instance: one candidate worth exactly
`amount + fee`; the outputs consist of the recipient output alone. -/
theorem C6_witness :
    send_transaction "F" "T" [cand10] 999900000 = Except.ok sendRecZeroChange ∧
    sendRecZeroChange.change = 0 ∧
    (sendRecZeroChange.change
        = sumValues sendRecZeroChange.selected - 999900000 - estimated_fee ∧
      sendRecZeroChange.totalSelected = sumValues sendRecZeroChange.selected ∧
      999900000 + estimated_fee ≤ sumValues sendRecZeroChange.selected ∧
      (0 < sendRecZeroChange.change →
        sendRecZeroChange.outputs = [{ value := 999900000, address := "T" },
                                     { value := sendRecZeroChange.change, address := "F" }]) ∧
      (sendRecZeroChange.change = 0 →
        sendRecZeroChange.outputs = [{ value := 999900000, address := "T" }])) :=
  ⟨rfl, rfl, C6_change_emission "F" "T" [cand10] 999900000 sendRecZeroChange rfl⟩

/-! ## Claims C7 and C10: UTXO lookup -/

/-- C7 fails on the code: when the WASM candidate source reports an error,
and likewise when it returns an empty list, `get_address_utxos` silently
substitutes the two hard-coded fixture candidates (10 and 5 SHADOW) and
returns them as a successful, nonempty result instead of surfacing an
explicit empty or error result. -/
theorem C7_mock_substitution :
    get_address_utxos true "S427a724d41e3a5a03d1f83553134239813272bc2c4b2d50737"
        (.err "connection refused")
      = .ok { address := "S427a724d41e3a5a03d1f83553134239813272bc2c4b2d50737"
              utxos := _create_mock_utxos "S427a724d41e3a5a03d1f83553134239813272bc2c4b2d50737"
              count := 2
              total_value := 1500000000
              source := "WASM-PQC" } ∧
    get_address_utxos true "S427a724d41e3a5a03d1f83553134239813272bc2c4b2d50737" (.list [])
      = .ok { address := "S427a724d41e3a5a03d1f83553134239813272bc2c4b2d50737"
              utxos := _create_mock_utxos "S427a724d41e3a5a03d1f83553134239813272bc2c4b2d50737"
              count := 2
              total_value := 1500000000
              source := "WASM-PQC" } ∧
    _create_mock_utxos "S427a724d41e3a5a03d1f83553134239813272bc2c4b2d50737" ≠ [] :=
  ⟨rfl, rfl, by decide⟩

/-- C10: every successful result of `get_address_utxos` — for every
candidate-source outcome — has `count` equal to the length of its `utxos`
list and `total_value` equal to the sum of their `value` fields, a missing
`value` counting as `0`. -/
theorem C10_result_invariant (hasClient : Bool) (address : String) (w : WasmResult)
    (r : UtxoResult) (h : get_address_utxos hasClient address w = .ok r) :
    r.count = r.utxos.length ∧ r.total_value = sumValues r.utxos := by
  unfold get_address_utxos at h
  by_cases hc : hasClient
  · rw [hc] at h
    simp only [Bool.not_true, Bool.false_eq_true, if_false, Except.ok.injEq] at h
    subst h
    exact ⟨rfl, rfl⟩
  · simp [hc] at h

/-- Witness for C10 at a dict outcome carrying one candidate. -/
theorem C10_witness :
    get_address_utxos true "A" (.dictWithUtxos [cand5]) = Except.ok utxoRes5 ∧
    (utxoRes5.count = utxoRes5.utxos.length ∧
      utxoRes5.total_value = sumValues utxoRes5.utxos) :=
  ⟨rfl, C10_result_invariant true "A" (.dictWithUtxos [cand5]) utxoRes5 rfl⟩

/-! ## Claims C8 and C9: HTTP façade and address validation -/

/-- C8 is refuted at a concrete request: the 404 response for an unmatched
path does not carry the `Access-Control-Allow-Origin: *` header —
`send_404` only sets `Content-Type`. -/
theorem C8_counterexample :
    (do_GET "/nope" (.ok 0 0)).status = 404 ∧
    hasCORS (do_GET "/nope" (.ok 0 0)) = false := by
  refine ⟨rfl, rfl⟩

/-- C8 (amended): the `Access-Control-Allow-Origin: *` header is set on
exactly the 200 balance responses; 404 responses and 500 internal-failure
responses do not set it. -/
theorem C8_cors_only_on_200 (path : String) (scan : ScanOutcome) :
    hasCORS (do_GET path scan) = decide ((do_GET path scan).status = 200) := by
  unfold do_GET
  by_cases h1 : path.startsWith "/api/v1/address/"
  · rw [if_pos h1]
    by_cases h2 : 5 ≤ (path.splitOn "/").length ∧ (path.splitOn "/").getD 4 "" = "balance"
    · rw [if_pos h2]
      cases scan with
      | ok b r => rfl
      | fails => rfl
    · rw [if_neg h2]; rfl
  · rw [if_neg h1]; rfl

/-- C9: `validate_address` is a pure function of the string that accepts
exactly the strings of length 51 whose first code point is `S`, without
constraining the remaining 50 code points in any way. -/
theorem C9_validate_address (address : List Char) :
    (validate_address address).valid = true ↔
      (address.length = 51 ∧ ∃ rest, address = 'S' :: rest) := by
  unfold validate_address
  by_cases h : address.length = 51 ∧ address.take 1 = ['S']
  · rw [if_pos h]
    constructor
    · intro _
      refine ⟨h.1, ?_⟩
      match address, h.2 with
      | c :: rest, htake =>
        simp only [List.take_succ_cons, List.take_zero] at htake
        exact ⟨rest, by rw [List.cons.injEq] at htake; rw [htake.1]⟩
    · intro _; rfl
  · rw [if_neg h]
    constructor
    · intro hv; exact absurd hv (by simp)
    · rintro ⟨hlen, rest, hcons⟩
      exact (h ⟨hlen, by rw [hcons]; rfl⟩).elim

/-- Concrete check for C9: `'S'` followed by 50 arbitrary (here
non-ASCII) code points validates true; a 50-character string and a
52-character string validate false. -/
theorem C9_examples :
    (validate_address ('S' :: List.replicate 50 'é')).valid = true ∧
    (validate_address (List.replicate 50 'S')).valid = false ∧
    (validate_address (List.replicate 52 'S')).valid = false := by
  refine ⟨?_, by decide, by decide⟩
  rw [C9_validate_address]
  exact ⟨by decide, List.replicate 50 'é', rfl⟩

end Shadowy
